import Mathlib

/-!
Shallow embedding of the campus-energy analysis pipeline (`anaylasis.py`)
and proofs about its ingestion, aggregation and peak-reading operations.

Modelling conventions:
* A pandas cell is a `Cell`: it records the raw string of the field together
  with the outcome of the two coercions the pipeline applies to it —
  `pd.to_datetime(..., errors="coerce")` (`asTime`, `none` models `NaT`) and
  `pd.to_numeric(..., errors="coerce")` (`asNum`, where `KVal.nan` models a
  missing/unparseable value and `KVal.pinf` / `KVal.ninf` model the IEEE
  infinities that `to_numeric` produces for fields such as `"inf"`).
* Timestamps are integers (epoch seconds); a calendar day is `fdiv 86400`.
* A CSV file as returned by `pd.read_csv` is a header row plus a list of
  rows of cells; a directory is a list of such files, and a path that does
  not exist is `none : Option (List CSVFile)`.
* `sort_values("timestamp")` is modelled by a stable sort
  (`List.insertionSort`), and column selection `df[c]` by the first column
  whose name is `c`.
-/

/-- Result of `pd.to_numeric(..., errors="coerce")` on one cell: a finite
rational, one of the two infinities, or `nan` (missing / unparseable). -/
inductive KVal where
  | nan : KVal
  | ninf : KVal
  | pinf : KVal
  | fin : ℚ → KVal
deriving DecidableEq

/-- A tabular cell: the raw string plus the outcomes of the datetime and
numeric coercions that `anaylasis.py` applies to it. -/
structure Cell where
  raw : String
  asTime : Option ℤ
  asNum : KVal
deriving DecidableEq

/-- The cell pandas supplies for a field that is absent from a short row. -/
def nanCell : Cell := ⟨"", none, KVal.nan⟩

/-- Cell of row `r` in column position `i` (missing trailing fields read as NaN). -/
def cellAt (r : List Cell) (i : ℕ) : Cell := r.getD i nanCell

/-- One CSV file as parsed by `pd.read_csv`: its base name (`f.stem`), its
header and its data rows. -/
structure CSVFile where
  name : String
  header : List String
  rows : List (List Cell)
deriving DecidableEq

/-- One row of the cleaned combined DataFrame: `timestamp` (the index),
`kWh` and `Building`. -/
structure Reading where
  timestamp : ℤ
  kWh : KVal
  building : String
deriving DecidableEq

/-- The cleaned combined DataFrame: its index name, whether the `Building`
column is present, and its rows. -/
structure CleanedFrame where
  indexName : String
  hasBuilding : Bool
  rows : List Reading
deriving DecidableEq

/-- Python `str.lower` restricted to the characters of the string. -/
def pyLower (s : String) : String := ⟨s.data.map Char.toLower⟩

/-- Whitespace characters removed by Python `str.strip`. -/
def isSpaceChar (ch : Char) : Bool := ch = ' ' ∨ ch = '\t' ∨ ch = '\n' ∨ ch = '\r'

/-- Python `str.strip`: drop leading and trailing whitespace. -/
def pyStrip (s : String) : String :=
  ⟨((s.data.dropWhile isSpaceChar).reverse.dropWhile isSpaceChar).reverse⟩

/-- Recognized variants of the time column (`lc in ("timestamp", "time", "date")`). -/
def tsNames : List String := ["timestamp", "time", "date"]

/-- Recognized variants of the energy column (`lc in ("kwh", "kw", "energy")`). -/
def kwhNames : List String := ["kwh", "kw", "energy"]

/-- Column renaming of `ingest_csv_folder`: `lc = c.strip().lower()`; names in
`tsNames` become `"timestamp"`, names in `kwhNames` become `"kWh"`, all other
columns keep their name. -/
def normalizeName (c : String) : String :=
  let lc := pyLower (pyStrip c)
  if lc ∈ tsNames then "timestamp"
  else if lc ∈ kwhNames then "kWh"
  else c

/-- Position of column `c` in header `h` (first occurrence), as used by `df[c]`. -/
def colIdx (h : List String) (c : String) : Option ℕ :=
  match h with
  | [] => none
  | x :: t => if x == c then some 0 else (colIdx t c).map (· + 1)

/-- The canonical-name version of a file: every recognized header variant
replaced by its canonical name, rows and base name unchanged. -/
def canonicalFile (f : CSVFile) : CSVFile := ⟨f.name, f.header.map normalizeName, f.rows⟩

/-- Whether a coerced numeric value is a finite number. -/
def KVal.isFinite : KVal → Bool
  | KVal.fin _ => true
  | _ => false

/-- Per-row step of lines 57–63 of `anaylasis.py`: coerce the timestamp and
kWh cells and keep the row only when both are non-missing, attaching the
building identity. -/
def parseRow (ti ki : ℕ) (b : String) (r : List Cell) : Option Reading :=
  match (cellAt r ti).asTime with
  | none => none
  | some t =>
    match (cellAt r ki).asNum with
    | KVal.nan => none
    | k => some ⟨t, k, b⟩

/-- Lines 39–63 of `anaylasis.py` once the building identity is known: rename
columns, skip the file when a required canonical column is absent, fail (file
skipped via the caught exception) when renaming creates duplicate canonical
columns — `pd.to_datetime` / `pd.to_numeric` then receive a DataFrame and
raise — and otherwise coerce and filter the rows.  `Except.error ()` means the
file contributes nothing and is recorded as skipped. -/
def processRows (f : CSVFile) (bname : String) : Except Unit (List Reading) :=
  let nh := f.header.map normalizeName
  if "timestamp" ∉ nh ∨ "kWh" ∉ nh then Except.error ()
  else if 2 ≤ nh.count "timestamp" ∨ 2 ≤ nh.count "kWh" then Except.error ()
  else
    match colIdx nh "timestamp", colIdx nh "kWh" with
    | some ti, some ki => Except.ok (f.rows.filterMap (parseRow ti ki bname))
    | _, _ => Except.error ()

/-- Lines 28–66 of `anaylasis.py` for one file: infer the building identity —
the first value of a literal `Building` column when present (raising, hence
skipping the file, when the file has no rows), the file's base name otherwise —
then process the rows. -/
def processFile (f : CSVFile) : Except Unit (List Reading) :=
  match colIdx f.header "Building" with
  | some i =>
    match f.rows with
    | [] => Except.error ()
    | r0 :: _ => processRows f (cellAt r0 i).raw
  | none => processRows f f.name

/-- The `bad_files` diagnostic list: names of files skipped or in error. -/
def badFiles (fs : List CSVFile) : List String :=
  fs.filterMap (fun f =>
    match processFile f with
    | Except.error _ => some f.name
    | Except.ok _ => none)

/-- Ordering used by `sort_values("timestamp")`. -/
def leTS (a b : Reading) : Prop := a.timestamp ≤ b.timestamp

instance : DecidableRel leTS := fun a b => Int.decLe a.timestamp b.timestamp

instance : IsTotal Reading leTS := ⟨fun a b => Int.le_total a.timestamp b.timestamp⟩

instance : IsTrans Reading leTS := ⟨fun _ _ _ hab hbc => le_trans hab hbc⟩

/-- `combined.sort_values("timestamp")`, modelled as a stable sort. -/
def sortTS (l : List Reading) : List Reading := List.insertionSort leTS l

/-- The empty cleaned DataFrame returned on lines 23 and 70. -/
def emptyFrame : CleanedFrame := ⟨"timestamp", true, []⟩

/-- Lines 20–79 of `anaylasis.py` for an existing directory: empty directory
and no-valid-data cases return the empty frame; otherwise the per-file results
are concatenated, sorted by timestamp and indexed by timestamp. -/
def ingestDir (files : List CSVFile) : CleanedFrame :=
  if files.isEmpty then emptyFrame
  else
    let processed := files.filterMap (fun f => (processFile f).toOption)
    if processed.isEmpty then emptyFrame
    else ⟨"timestamp", true, sortTS processed.flatten⟩

/-- The raised condition of line 18 (`FileNotFoundError`). -/
inductive IngestError where
  | missingDirectory : IngestError
deriving DecidableEq

/-- `ingest_csv_folder`: a nonexistent path raises `FileNotFoundError`;
an existing directory is ingested. -/
def ingest_csv_folder (dir : Option (List CSVFile)) : Except IngestError CleanedFrame :=
  match dir with
  | none => Except.error IngestError.missingDirectory
  | some fs => Except.ok (ingestDir fs)

/-- pandas addition on coerced numbers: `nan` propagates and the two
infinities cancel to `nan`. -/
def kadd : KVal → KVal → KVal
  | KVal.nan, _ => KVal.nan
  | _, KVal.nan => KVal.nan
  | KVal.pinf, KVal.ninf => KVal.nan
  | KVal.ninf, KVal.pinf => KVal.nan
  | KVal.pinf, _ => KVal.pinf
  | _, KVal.pinf => KVal.pinf
  | KVal.ninf, _ => KVal.ninf
  | _, KVal.ninf => KVal.ninf
  | KVal.fin a, KVal.fin b => KVal.fin (a + b)

/-- pandas `sum` (skipna, `min_count=0`): missing values are dropped and the
empty sum is `0`. -/
def ksum (l : List KVal) : KVal :=
  (l.filter (fun v => v ≠ KVal.nan)).foldl kadd (KVal.fin 0)

/-- Number of non-missing values, as used by the `mean` aggregation. -/
def kcount (l : List KVal) : ℕ :=
  (l.filter (fun v => v ≠ KVal.nan)).length

/-- Division of a coerced number by a positive count. -/
def kdivNat (v : KVal) (n : ℕ) : KVal :=
  match v with
  | KVal.fin q => KVal.fin (q / (n : ℚ))
  | v => v

/-- pandas `mean` (skipna): sum of the non-missing values over their count. -/
def kmean (l : List KVal) : KVal :=
  if kcount l = 0 then KVal.nan else kdivNat (ksum l) (kcount l)

/-- Strict numeric order used to compare coerced values: `nan` sorts lowest
so that a maximum search skips it, `-inf < finite < +inf`. -/
def kltB : KVal → KVal → Bool
  | KVal.nan, KVal.nan => false
  | KVal.nan, _ => true
  | _, KVal.nan => false
  | KVal.ninf, KVal.ninf => false
  | KVal.ninf, _ => true
  | _, KVal.ninf => false
  | KVal.pinf, _ => false
  | KVal.fin _, KVal.pinf => true
  | KVal.fin a, KVal.fin b => decide (a < b)

/-- Binary minimum, skipping missing values as pandas `min` does. -/
def kminB (a b : KVal) : KVal :=
  if a = KVal.nan then b
  else if b = KVal.nan then a
  else if kltB b a then b else a

/-- Binary maximum, skipping missing values as pandas `max` does. -/
def kmaxB (a b : KVal) : KVal :=
  if a = KVal.nan then b
  else if b = KVal.nan then a
  else if kltB a b then b else a

/-- pandas `min` over a column (empty column gives `nan`). -/
def kfoldMin (l : List KVal) : KVal :=
  match l with
  | [] => KVal.nan
  | v :: vs => vs.foldl kminB v

/-- pandas `max` over a column (empty column gives `nan`). -/
def kfoldMax (l : List KVal) : KVal :=
  match l with
  | [] => KVal.nan
  | v :: vs => vs.foldl kmaxB v

/-- Floor of a rational, computed from its reduced fraction. -/
def ratFloor (q : ℚ) : ℤ := q.num.fdiv (q.den : ℤ)

/-- Round to the nearest integer, ties to even, as numpy rounding does. -/
def roundHalfEven (q : ℚ) : ℤ :=
  if q - (ratFloor q : ℚ) = 1 / 2 then
    (if ratFloor q % 2 = 0 then ratFloor q else ratFloor q + 1)
  else ratFloor (q + 1 / 2)

/-- `round(3)` on a coerced value: finite values are rounded to 3 decimal
digits, `nan` and the infinities are unchanged. -/
def kround3 : KVal → KVal
  | KVal.fin q => KVal.fin ((roundHalfEven (q * 1000) : ℚ) / 1000)
  | v => v

/-- Output frame of the daily-totals aggregation: column names, index name
(absent on the empty branch, where no index is set) and `(day, total)` rows. -/
structure AggFrame where
  cols : List String
  indexName : Option String
  rows : List (ℤ × KVal)
deriving DecidableEq

/-- Calendar day of a reading (`resample("D")` bin). -/
def dayOf (r : Reading) : ℤ := r.timestamp.fdiv 86400

/-- Lines 82–92 of `anaylasis.py` (`calculate_daily_totals`): an empty frame
returns `pd.DataFrame(columns=["kWh"])`; otherwise `kWh` is summed per
calendar day over the full day range, the index is named `date` and the value
column renamed `daily_kWh`. -/
def calculate_daily_totals (df : CleanedFrame) : AggFrame :=
  match df.rows with
  | [] => ⟨["kWh"], none, []⟩
  | r :: rs =>
    let d0 := rs.foldl (fun a x => min a (dayOf x)) (dayOf r)
    let d1 := rs.foldl (fun a x => max a (dayOf x)) (dayOf r)
    let days := (List.range ((d1 - d0).toNat + 1)).map (fun i => d0 + (i : ℤ))
    ⟨["daily_kWh"], some "date",
      days.map (fun d =>
        (d, ksum (((r :: rs).filter (fun x => dayOf x == d)).map Reading.kWh)))⟩

/-- One row of the building summary. -/
structure SummaryRow where
  building : String
  mean : KVal
  min : KVal
  max : KVal
  total : KVal
deriving DecidableEq

/-- Output frame of `building_wise_summary`. -/
structure SummaryFrame where
  cols : List String
  rows : List SummaryRow
deriving DecidableEq

/-- Lexicographic string order by character code, the order in which pandas
`groupby(sort=True)` lists its group keys. -/
def charListLe : List Char → List Char → Bool
  | [], _ => true
  | _ :: _, [] => false
  | a :: as, b :: bs =>
    if a.toNat < b.toNat then true
    else if b.toNat < a.toNat then false
    else charListLe as bs

/-- String order lifted from `charListLe`. -/
def strLe (a b : String) : Prop := charListLe a.data b.data = true

instance : DecidableRel strLe := fun a b => instDecidableEqBool (charListLe a.data b.data) true

/-- Group keys of `groupby("Building")`: the distinct building names in
ascending order. -/
def sortedKeys (l : List Reading) : List String :=
  List.insertionSort strLe (l.map Reading.building).dedup

/-- The `kWh` values of one building's group. -/
def groupVals (l : List Reading) (b : String) : List KVal :=
  (l.filter (fun r => r.building == b)).map Reading.kWh

/-- Lines 102–107 of `anaylasis.py` (`building_wise_summary`): an empty frame
or one without a `Building` column returns
`pd.DataFrame(columns=["mean","min","max","sum"])`; otherwise per-building
mean, min, max and sum of `kWh`, each rounded to 3 digits, with the columns
renamed to `mean_kWh`, `min_kWh`, `max_kWh`, `total_kWh`. -/
def building_wise_summary (df : CleanedFrame) : SummaryFrame :=
  if df.rows.isEmpty || !df.hasBuilding then ⟨["mean", "min", "max", "sum"], []⟩
  else
    ⟨["mean_kWh", "min_kWh", "max_kWh", "total_kWh"],
      (sortedKeys df.rows).map (fun b =>
        let vs := groupVals df.rows b
        ⟨b, kround3 (kmean vs), kround3 (kfoldMin vs), kround3 (kfoldMax vs),
          kround3 (ksum vs)⟩)⟩

/-- The pandas Series returned by `find_peak_time` on a non-empty frame. -/
structure Peak where
  timestamp : ℤ
  kWh : KVal
deriving DecidableEq

/-- `df["kWh"].idxmax()` computed left to right: the first row whose `kWh` is
not exceeded later keeps the role of maximum. -/
def firstMax (best : Reading) : List Reading → Reading
  | [] => best
  | x :: xs => if kltB best.kWh x.kWh then firstMax x xs else firstMax best xs

/-- Lines 109–129 of `anaylasis.py` (`find_peak_time`): empty input returns an
empty Series (`none`); otherwise `idx = df["kWh"].idxmax()` is the index label
of the first maximal `kWh`, and the reported `kWh` is `df.loc[idx, "kWh"]`
reduced to its first entry — the `kWh` of the first row whose timestamp equals
`idx`, whether or not that row is the maximal one. -/
def find_peak_time (df : CleanedFrame) : Option Peak :=
  match df.rows with
  | [] => none
  | r :: rs =>
    let m := firstMax r rs
    let sameTs := (r :: rs).filter (fun x => x.timestamp == m.timestamp)
    some ⟨m.timestamp, (sameTs.headD m).kWh⟩

/-- All three branches of `ingestDir` produce the sorted concatenation of the
per-file results (the two early returns are the case of that concatenation
being empty). -/
theorem ingestDir_eq (fs : List CSVFile) :
    ingestDir fs =
      ⟨"timestamp", true,
        sortTS (fs.filterMap (fun f => (processFile f).toOption)).flatten⟩ := by
  unfold ingestDir
  by_cases h1 : fs.isEmpty
  · rw [List.isEmpty_iff.mp h1]
    simp [emptyFrame, sortTS, List.insertionSort]
  · simp only [h1, Bool.false_eq_true, if_false]
    by_cases h2 : (fs.filterMap (fun f => (processFile f).toOption)).isEmpty
    · rw [if_pos h2, List.isEmpty_iff.mp h2]
      simp [emptyFrame, sortTS, List.insertionSort]
    · rw [if_neg h2]

/-- C7: ingestion of a nonexistent path fails with the missing-directory
condition and returns no frame; ingestion of an existing directory never
raises that condition. -/
theorem c7_missing_directory_raises :
    ingest_csv_folder none = Except.error IngestError.missingDirectory ∧
    ∀ fs : List CSVFile, (ingest_csv_folder (some fs)).isOk = true :=
  ⟨rfl, fun _ => rfl⟩

/-- C5 counterexample: on an empty frame `calculate_daily_totals` returns an
empty result whose column is `kWh`, not `daily_kWh` as claimed. -/
theorem c5_counterexample :
    (calculate_daily_totals ⟨"timestamp", true, []⟩).cols = ["kWh"] ∧
    (calculate_daily_totals ⟨"timestamp", true, []⟩).cols ≠ ["daily_kWh"] := by
  constructor <;> decide

/-- C5 amended: an empty frame yields the structurally valid empty result
with column `kWh` (no rows, no index); the `daily_kWh` column name appears
only on non-empty input, where the index is named `date`. -/
theorem c5_daily_totals_empty (df : CleanedFrame) :
    (df.rows = [] → calculate_daily_totals df = ⟨["kWh"], none, []⟩) ∧
    (df.rows ≠ [] →
      (calculate_daily_totals df).cols = ["daily_kWh"] ∧
      (calculate_daily_totals df).indexName = some "date") := by
  constructor
  · intro h
    simp [calculate_daily_totals, h]
  · intro h
    rcases hr : df.rows with _ | ⟨r, rs⟩
    · exact absurd hr h
    · simp [calculate_daily_totals, hr]

/-- C5 witness: the amended statement evaluated at concrete frames. -/
theorem c5_daily_totals_empty_witness :
    calculate_daily_totals ⟨"timestamp", true, []⟩ = ⟨["kWh"], none, []⟩ ∧
    (calculate_daily_totals ⟨"timestamp", true, [⟨0, KVal.fin 1, "A"⟩]⟩).cols = ["daily_kWh"] := by
  refine ⟨(c5_daily_totals_empty _).1 rfl, ?_⟩
  exact ((c5_daily_totals_empty ⟨"timestamp", true, [⟨0, KVal.fin 1, "A"⟩]⟩).2 (by simp)).1

/-- C6 counterexample: on an empty frame `building_wise_summary` returns the
columns `mean`, `min`, `max`, `sum`, not the renamed columns the claim
states. -/
theorem c6_counterexample :
    (building_wise_summary ⟨"timestamp", true, []⟩).cols = ["mean", "min", "max", "sum"] ∧
    (building_wise_summary ⟨"timestamp", true, []⟩).cols ≠
      ["mean_kWh", "min_kWh", "max_kWh", "total_kWh"] := by
  constructor <;> decide

/-- C6 amended: empty or Building-less input yields the empty result with the
unrenamed columns `mean`, `min`, `max`, `sum`; non-empty input with a Building
column carries the renamed columns, every summary row holds the rounded mean,
min, max and sum of its building's `kWh` group, and every building of the
input has a summary row. -/
theorem c6_building_summary (df : CleanedFrame) :
    ((df.rows = [] ∨ df.hasBuilding = false) →
      building_wise_summary df = ⟨["mean", "min", "max", "sum"], []⟩) ∧
    (df.rows ≠ [] → df.hasBuilding = true →
      (building_wise_summary df).cols = ["mean_kWh", "min_kWh", "max_kWh", "total_kWh"] ∧
      (∀ s ∈ (building_wise_summary df).rows,
        s.mean = kround3 (kmean (groupVals df.rows s.building)) ∧
        s.min = kround3 (kfoldMin (groupVals df.rows s.building)) ∧
        s.max = kround3 (kfoldMax (groupVals df.rows s.building)) ∧
        s.total = kround3 (ksum (groupVals df.rows s.building))) ∧
      (∀ b ∈ df.rows.map Reading.building,
        ∃ s ∈ (building_wise_summary df).rows, s.building = b)) := by
  constructor
  · rintro (h | h) <;> simp [building_wise_summary, h]
  · intro h1 h2
    have hcond : (df.rows.isEmpty || !df.hasBuilding) = false := by
      simp [h2, List.isEmpty_iff, h1]
    refine ⟨?_, ?_, ?_⟩
    · simp [building_wise_summary, hcond]
    · intro s hs
      simp only [building_wise_summary, hcond, Bool.false_eq_true, if_false,
        List.mem_map] at hs
      obtain ⟨b, _, rfl⟩ := hs
      exact ⟨rfl, rfl, rfl, rfl⟩
    · intro b hb
      have hbmem : b ∈ sortedKeys df.rows := by
        unfold sortedKeys
        rw [List.mem_insertionSort, List.mem_dedup]
        exact hb
      refine ⟨⟨b, kround3 (kmean (groupVals df.rows b)),
        kround3 (kfoldMin (groupVals df.rows b)), kround3 (kfoldMax (groupVals df.rows b)),
        kround3 (ksum (groupVals df.rows b))⟩, ?_, rfl⟩
      simp only [building_wise_summary, hcond, Bool.false_eq_true, if_false,
        List.mem_map]
      exact ⟨b, hbmem, rfl⟩

/-- C6 witness: the amended statement at an empty frame and at the spec's
two-building scenario. -/
theorem c6_building_summary_witness :
    building_wise_summary ⟨"timestamp", true, []⟩ = ⟨["mean", "min", "max", "sum"], []⟩ ∧
    (building_wise_summary ⟨"timestamp", true,
      [⟨0, KVal.fin 10, "A"⟩, ⟨1800, KVal.fin 5, "Hall"⟩,
        ⟨3600, KVal.fin 15, "A"⟩]⟩).cols = ["mean_kWh", "min_kWh", "max_kWh", "total_kWh"] := by
  refine ⟨(c6_building_summary _).1 (Or.inl rfl), ?_⟩
  exact ((c6_building_summary ⟨"timestamp", true,
    [⟨0, KVal.fin 10, "A"⟩, ⟨1800, KVal.fin 5, "Hall"⟩,
      ⟨3600, KVal.fin 15, "A"⟩]⟩).2 (by simp) rfl).1

/-- Inserting a reading commutes with filtering on a timestamp: the inserted
reading lands in front of the filtered part exactly when its timestamp
matches (stability of the insertion step). -/
theorem filter_orderedInsert (a : Reading) (k : ℤ) :
    ∀ l : List Reading,
      (List.orderedInsert leTS a l).filter (fun x => x.timestamp == k) =
        if a.timestamp = k then a :: l.filter (fun x => x.timestamp == k)
        else l.filter (fun x => x.timestamp == k) := by
  intro l
  induction l with
  | nil =>
    by_cases h : a.timestamp = k <;> simp [List.orderedInsert, h]
  | cons b l ih =>
    simp only [List.orderedInsert]
    by_cases hle : leTS a b
    · rw [if_pos hle]
      by_cases h : a.timestamp = k <;> by_cases hb : b.timestamp = k <;>
        simp [List.filter_cons, h, hb]
    · rw [if_neg hle]
      by_cases h : a.timestamp = k
      · by_cases hb : b.timestamp = k
        · exact absurd (le_of_eq (h.trans hb.symm) : leTS a b) hle
        · simp [List.filter_cons, h, hb, ih]
      · by_cases hb : b.timestamp = k <;> simp [List.filter_cons, h, hb, ih]

/-- Stability of the timestamp sort: sorting does not change the subsequence
of readings bearing any one timestamp. -/
theorem filter_sortTS (l : List Reading) (k : ℤ) :
    (sortTS l).filter (fun x => x.timestamp == k) =
      l.filter (fun x => x.timestamp == k) := by
  induction l with
  | nil => rfl
  | cons a l ih =>
    show (List.orderedInsert leTS a (List.insertionSort leTS l)).filter _ = _
    rw [filter_orderedInsert]
    have ih2 : (List.insertionSort leTS l).filter (fun x => x.timestamp == k) =
        l.filter (fun x => x.timestamp == k) := ih
    by_cases h : a.timestamp = k <;> simp [List.filter_cons, h, ih2]

/-- Two sorted lists of readings agreeing on every per-timestamp subsequence
are equal: a stable sorted form is unique. -/
theorem sorted_filter_ext :
    ∀ {l₁ l₂ : List Reading}, List.Sorted leTS l₁ → List.Sorted leTS l₂ →
      (∀ k : ℤ, l₁.filter (fun x => x.timestamp == k) =
        l₂.filter (fun x => x.timestamp == k)) →
      l₁ = l₂ := by
  intro l₁
  induction l₁ with
  | nil =>
    intro l₂ _ _ h
    cases l₂ with
    | nil => rfl
    | cons b t₂ =>
      have hb := h b.timestamp
      simp [List.filter_cons] at hb
  | cons a t ih =>
    intro l₂ s₁ s₂ h
    cases l₂ with
    | nil =>
      have ha := h a.timestamp
      simp [List.filter_cons] at ha
    | cons b t₂ =>
      have hmem_b : b ∈ a :: t := by
        have hf := h b.timestamp
        have hbmem : b ∈ (b :: t₂).filter (fun x => x.timestamp == b.timestamp) := by
          simp [List.mem_filter]
        rw [← hf] at hbmem
        exact (List.mem_filter.mp hbmem).1
      have hmem_a : a ∈ b :: t₂ := by
        have hf := h a.timestamp
        have hamem : a ∈ (a :: t).filter (fun x => x.timestamp == a.timestamp) := by
          simp [List.mem_filter]
        rw [hf] at hamem
        exact (List.mem_filter.mp hamem).1
      have hab : a.timestamp ≤ b.timestamp := by
        rcases List.mem_cons.mp hmem_b with h1 | h1
        · rw [h1]
        · exact (List.sorted_cons.mp s₁).1 b h1
      have hba : b.timestamp ≤ a.timestamp := by
        rcases List.mem_cons.mp hmem_a with h1 | h1
        · rw [h1]
        · exact (List.sorted_cons.mp s₂).1 a h1
      have heq : a.timestamp = b.timestamp := le_antisymm hab hba
      have hk := h a.timestamp
      rw [List.filter_cons, List.filter_cons] at hk
      simp only [beq_self_eq_true, if_true, heq.symm, beq_iff_eq] at hk
      injection hk with hhead htail
      subst hhead
      have htf : ∀ k : ℤ, t.filter (fun x => x.timestamp == k) =
          t₂.filter (fun x => x.timestamp == k) := by
        intro k
        have hk2 := h k
        rw [List.filter_cons, List.filter_cons] at hk2
        by_cases hck : a.timestamp = k
        · simp only [hck, beq_self_eq_true, if_true] at hk2
          injection hk2
        · simp only [beq_iff_eq, hck, if_false] at hk2
          exact hk2
      rw [ih (List.sorted_cons.mp s₁).2 (List.sorted_cons.mp s₂).2 htf]

/-- Sorting the concatenation of two sorted runs gives the same list as
sorting the underlying concatenation: the stable sort absorbs pre-sorting. -/
theorem sortTS_sortTS_append (l₁ l₂ : List Reading) :
    sortTS (sortTS l₁ ++ sortTS l₂) = sortTS (l₁ ++ l₂) := by
  apply sorted_filter_ext (List.sorted_insertionSort leTS _)
    (List.sorted_insertionSort leTS _)
  intro k
  show (sortTS (sortTS l₁ ++ sortTS l₂)).filter (fun x => x.timestamp == k) =
    (sortTS (l₁ ++ l₂)).filter (fun x => x.timestamp == k)
  simp only [filter_sortTS, List.filter_append]

/-- C4: ingesting a directory holding two files yields exactly the
timestamp-sorted union of the frames obtained by ingesting each file's
single-file directory. -/
theorem c4_union_merge (fA fB : CSVFile) :
    (ingestDir [fA, fB]).rows =
      sortTS ((ingestDir [fA]).rows ++ (ingestDir [fB]).rows) := by
  rw [ingestDir_eq, ingestDir_eq, ingestDir_eq]
  show sortTS (List.filterMap (fun f => (processFile f).toOption) ([fA] ++ [fB])).flatten =
    sortTS (sortTS _ ++ sortTS _)
  rw [List.filterMap_append, List.flatten_append, sortTS_sortTS_append]

/-- C9: whenever ingestion of an existing directory produces any usable row,
the cleaned frame is sorted ascending by timestamp and its index is the
timestamp column. -/
theorem c9_sorted_and_indexed (fs : List CSVFile)
    (_h : (ingestDir fs).rows ≠ []) :
    List.Sorted leTS (ingestDir fs).rows ∧ (ingestDir fs).indexName = "timestamp" := by
  rw [ingestDir_eq]
  exact ⟨List.sorted_insertionSort leTS _, rfl⟩

/-- C9 witness: the sortedness and index statement evaluated on a concrete
two-row file whose rows arrive out of order. -/
theorem c9_sorted_and_indexed_witness :
    List.Sorted leTS (ingestDir [⟨"A", ["timestamp", "kWh"],
      [[⟨"2024-01-01 01:00", some 3600, KVal.nan⟩, ⟨"5", none, KVal.fin 5⟩],
        [⟨"2024-01-01 00:00", some 0, KVal.nan⟩, ⟨"2", none, KVal.fin 2⟩]]⟩]).rows ∧
    (ingestDir [⟨"A", ["timestamp", "kWh"],
      [[⟨"2024-01-01 01:00", some 3600, KVal.nan⟩, ⟨"5", none, KVal.fin 5⟩],
        [⟨"2024-01-01 00:00", some 0, KVal.nan⟩, ⟨"2", none, KVal.fin 2⟩]]⟩]).indexName =
      "timestamp" :=
  c9_sorted_and_indexed _ (by decide)

/-- Renaming is idempotent: the canonical names map to themselves. -/
theorem normalizeName_idem (c : String) :
    normalizeName (normalizeName c) = normalizeName c := by
  by_cases h1 : pyLower (pyStrip c) ∈ tsNames
  · have hc : normalizeName c = "timestamp" := by simp [normalizeName, h1]
    rw [hc]
    decide
  · by_cases h2 : pyLower (pyStrip c) ∈ kwhNames
    · have hc : normalizeName c = "kWh" := by simp [normalizeName, h1, h2]
      rw [hc]
      decide
    · have hc : normalizeName c = c := by simp [normalizeName, h1, h2]
      rw [hc, hc]

/-- Renaming never creates nor destroys a literal `Building` column. -/
theorem normalizeName_beq_building (c : String) :
    (normalizeName c == "Building") = (c == "Building") := by
  by_cases h1 : pyLower (pyStrip c) ∈ tsNames
  · have hc : normalizeName c = "timestamp" := by simp [normalizeName, h1]
    have hcb : c ≠ "Building" := by
      intro hcc
      rw [hcc] at h1
      exact absurd h1 (by decide)
    rw [hc, show ("timestamp" == "Building") = false from by decide]
    symm
    rw [beq_eq_false_iff_ne]
    exact hcb
  · by_cases h2 : pyLower (pyStrip c) ∈ kwhNames
    · have hc : normalizeName c = "kWh" := by simp [normalizeName, h1, h2]
      have hcb : c ≠ "Building" := by
        intro hcc
        rw [hcc] at h2
        exact absurd h2 (by decide)
      rw [hc, show ("kWh" == "Building") = false from by decide]
      symm
      rw [beq_eq_false_iff_ne]
      exact hcb
    · have hc : normalizeName c = c := by simp [normalizeName, h1, h2]
      rw [hc]

/-- The `Building` column is found at the same position before and after
renaming. -/
theorem colIdx_map_building (h : List String) :
    colIdx (h.map normalizeName) "Building" = colIdx h "Building" := by
  induction h with
  | nil => rfl
  | cons c t ih =>
    simp only [List.map_cons, colIdx]
    rw [normalizeName_beq_building c, ih]

/-- Renaming the header of an already-renamed file changes nothing. -/
theorem canonicalFile_header (f : CSVFile) :
    (canonicalFile f).header.map normalizeName = f.header.map normalizeName := by
  show (f.header.map normalizeName).map normalizeName = f.header.map normalizeName
  rw [List.map_map]
  exact List.map_congr_left (fun c _ => normalizeName_idem c)

/-- Row processing of a file and of its canonical-name version agree. -/
theorem processRows_canonical (f : CSVFile) (b : String) :
    processRows (canonicalFile f) b = processRows f b := by
  unfold processRows
  rw [canonicalFile_header]
  rfl

/-- Whole-file processing of a file and of its canonical-name version agree. -/
theorem processFile_canonical (f : CSVFile) :
    processFile (canonicalFile f) = processFile f := by
  unfold processFile
  show (match colIdx (f.header.map normalizeName) "Building" with
    | some i =>
      match (canonicalFile f).rows with
      | [] => Except.error ()
      | r0 :: _ => processRows (canonicalFile f) (cellAt r0 i).raw
    | none => processRows (canonicalFile f) (canonicalFile f).name) = _
  rw [colIdx_map_building]
  rcases colIdx f.header "Building" with _ | i
  · show processRows (canonicalFile f) f.name = processRows f f.name
    exact processRows_canonical f f.name
  · show (match f.rows with
      | [] => Except.error ()
      | r0 :: _ => processRows (canonicalFile f) (cellAt r0 i).raw) = _
    rcases f.rows with _ | ⟨r0, rest⟩
    · rfl
    · exact processRows_canonical f (cellAt r0 i).raw

/-- C3: a directory of files whose column names differ from the canonical
names only by case, whitespace or a recognized synonym ingests to exactly the
same cleaned frame as the directory of their canonical-name versions. -/
theorem c3_normalization_invariance (fs : List CSVFile) :
    ingestDir (fs.map canonicalFile) = ingestDir fs := by
  rw [ingestDir_eq, ingestDir_eq]
  rw [List.filterMap_map]
  have hfun : ((fun f => (processFile f).toOption) ∘ canonicalFile) =
      (fun f => (processFile f).toOption) := by
    funext f
    show (processFile (canonicalFile f)).toOption = (processFile f).toOption
    rw [processFile_canonical]
  rw [hfun]

/-- The rows field of the collapsed form of `ingestDir`. -/
theorem ingestDir_rows (fs : List CSVFile) :
    (ingestDir fs).rows =
      sortTS (fs.filterMap (fun f => (processFile f).toOption)).flatten := by
  rw [ingestDir_eq]

/-- A successful `processRows` outcome is the filterMap of the row parser
over the file's rows. -/
theorem processRows_ok_shape (f : CSVFile) (b : String) (rs : List Reading)
    (h : processRows f b = Except.ok rs) :
    ∃ ti ki, rs = f.rows.filterMap (parseRow ti ki b) := by
  simp only [processRows] at h
  split at h
  · simp at h
  · split at h
    · simp at h
    · split at h
      · next ti ki heq1 heq2 =>
        injection h with h2
        exact ⟨ti, ki, h2.symm⟩
      · simp at h

/-- A successful `processFile` outcome is the filterMap of the row parser for
some column positions and building name. -/
theorem processFile_ok_shape (f : CSVFile) (rs : List Reading)
    (h : processFile f = Except.ok rs) :
    ∃ ti ki b, rs = f.rows.filterMap (parseRow ti ki b) := by
  unfold processFile at h
  split at h
  · split at h
    · simp at h
    · obtain ⟨ti, ki, hrs⟩ := processRows_ok_shape _ _ _ h
      exact ⟨ti, ki, _, hrs⟩
  · obtain ⟨ti, ki, hrs⟩ := processRows_ok_shape _ _ _ h
    exact ⟨ti, ki, _, hrs⟩

/-- A surviving row has a non-missing `kWh` and carries the building name it
was given. -/
theorem parseRow_not_nan (ti ki : ℕ) (b : String) (r : List Cell) (rd : Reading)
    (h : parseRow ti ki b r = some rd) : rd.kWh ≠ KVal.nan ∧ rd.building = b := by
  unfold parseRow at h
  rcases hT : (cellAt r ti).asTime with _ | t <;> rw [hT] at h
  · simp at h
  · rcases hN : (cellAt r ki).asNum with _ | _ | _ | q <;> rw [hN] at h
    · simp at h
    · injection h with h2
      subst h2
      exact ⟨by simp, rfl⟩
    · injection h with h2
      subst h2
      exact ⟨by simp, rfl⟩
    · injection h with h2
      subst h2
      exact ⟨by simp, rfl⟩

/-- C2 amended: every row of the cleaned frame has a non-missing `kWh` — rows
whose timestamp or `kWh` fail to parse are dropped — though the retained value
may be an infinity rather than a finite number. -/
theorem c2_rows_not_missing (fs : List CSVFile) :
    ∀ rd ∈ (ingestDir fs).rows, rd.kWh ≠ KVal.nan := by
  intro rd hmem
  rw [ingestDir_rows] at hmem
  unfold sortTS at hmem
  rw [List.mem_insertionSort, List.mem_flatten] at hmem
  obtain ⟨l, hl, hrdl⟩ := hmem
  rw [List.mem_filterMap] at hl
  obtain ⟨f, _, hfl⟩ := hl
  have hok : processFile f = Except.ok l := by
    rcases hpf : processFile f with e | rs <;> rw [hpf] at hfl
    · simp [Except.toOption] at hfl
    · simp [Except.toOption] at hfl
      rw [hfl]
  obtain ⟨ti, ki, b, hshape⟩ := processFile_ok_shape f l hok
  rw [hshape, List.mem_filterMap] at hrdl
  obtain ⟨cells, _, hpr⟩ := hrdl
  exact (parseRow_not_nan ti ki b cells rd hpr).1

/-- C2 counterexample: a cell reading `"inf"` is coerced by `pd.to_numeric` to
an infinity, which is not missing, so the row survives `dropna` and the
cleaned frame retains a non-finite `kWh`. -/
theorem c2_counterexample :
    (ingestDir [⟨"A", ["timestamp", "kWh"],
      [[⟨"2024-01-01", some 0, KVal.nan⟩, ⟨"inf", none, KVal.pinf⟩]]⟩]).rows =
      [⟨0, KVal.pinf, "A"⟩] ∧
    KVal.pinf.isFinite = false := by
  constructor <;> decide

/-- C2 witness: the amended statement evaluated at a concrete one-row file. -/
theorem c2_rows_not_missing_witness :
    (⟨0, KVal.fin 5, "A"⟩ : Reading).kWh ≠ KVal.nan :=
  c2_rows_not_missing [⟨"A", ["timestamp", "kWh"],
    [[⟨"t", some 0, KVal.nan⟩, ⟨"5", none, KVal.fin 5⟩]]⟩] _ (by decide)

/-- A file whose renamed header lacks the canonical timestamp column is
skipped regardless of the building name in use. -/
theorem processRows_error_of_missing (f : CSVFile) (b : String)
    (h : "timestamp" ∉ f.header.map normalizeName) :
    processRows f b = Except.error () := by
  simp only [processRows]
  rw [if_pos (Or.inl h)]

/-- A column absent from the header has no position. -/
theorem colIdx_eq_none (h : List String) (c : String) (hc : c ∉ h) :
    colIdx h c = none := by
  induction h with
  | nil => rfl
  | cons x t ih =>
    have hx : (x == c) = false := by
      rw [beq_eq_false_iff_ne]
      intro hxe
      exact hc (hxe ▸ List.mem_cons_self x t)
    have ht : c ∉ t := fun hmem => hc (List.mem_cons_of_mem x hmem)
    simp [colIdx, hx, ih ht]

/-- C8: a file lacking both canonical columns after renaming is skipped — it
is not ok, it is recorded among the skipped files, and the directory ingests
to exactly the frame obtained without it, so the other files are unaffected
and nothing is raised. -/
theorem c8_skip_missing_columns (f : CSVFile) (pre post : List CSVFile)
    (hts : "timestamp" ∉ f.header.map normalizeName)
    (_hk : "kWh" ∉ f.header.map normalizeName) :
    (processFile f).isOk = false ∧
    f.name ∈ badFiles (pre ++ f :: post) ∧
    ingestDir (pre ++ f :: post) = ingestDir (pre ++ post) := by
  have herr : processFile f = Except.error () := by
    unfold processFile
    split
    · split
      · rfl
      · exact processRows_error_of_missing f _ hts
    · exact processRows_error_of_missing f _ hts
  refine ⟨by rw [herr]; rfl, ?_, ?_⟩
  · unfold badFiles
    rw [List.mem_filterMap]
    exact ⟨f, by simp, by rw [herr]⟩
  · rw [ingestDir_eq, ingestDir_eq]
    have hfm : (pre ++ f :: post).filterMap (fun g => (processFile g).toOption) =
        (pre ++ post).filterMap (fun g => (processFile g).toOption) := by
      rw [List.filterMap_append, List.filterMap_append, List.filterMap_cons, herr]
      simp [Except.toOption]
    rw [hfm]

/-- C8 witness: the skip statement evaluated with one good file and one file
missing both recognized columns. -/
theorem c8_skip_missing_columns_witness :
    (processFile ⟨"bad", ["foo", "bar"], []⟩).isOk = false ∧
    "bad" ∈ badFiles [⟨"good", ["timestamp", "kWh"],
      [[⟨"t", some 0, KVal.nan⟩, ⟨"1", none, KVal.fin 1⟩]]⟩, ⟨"bad", ["foo", "bar"], []⟩] ∧
    ingestDir [⟨"good", ["timestamp", "kWh"],
      [[⟨"t", some 0, KVal.nan⟩, ⟨"1", none, KVal.fin 1⟩]]⟩, ⟨"bad", ["foo", "bar"], []⟩] =
      ingestDir [⟨"good", ["timestamp", "kWh"],
        [[⟨"t", some 0, KVal.nan⟩, ⟨"1", none, KVal.fin 1⟩]]⟩] :=
  c8_skip_missing_columns ⟨"bad", ["foo", "bar"], []⟩
    [⟨"good", ["timestamp", "kWh"], [[⟨"t", some 0, KVal.nan⟩, ⟨"1", none, KVal.fin 1⟩]]⟩]
    [] (by decide) (by decide)

/-- C10: when no column is spelled exactly `Building` — whatever lowercase or
uppercase variants are present — every ingested row of the file carries the
file's base name as its building identity. -/
theorem c10_building_from_filename (f : CSVFile) (rs : List Reading)
    (hB : "Building" ∉ f.header) (hok : processFile f = Except.ok rs) :
    ∀ rd ∈ rs, rd.building = f.name := by
  have hidx : colIdx f.header "Building" = none := colIdx_eq_none _ _ hB
  unfold processFile at hok
  simp only [hidx] at hok
  obtain ⟨ti, ki, hshape⟩ := processRows_ok_shape f f.name rs hok
  intro rd hm
  rw [hshape, List.mem_filterMap] at hm
  obtain ⟨cells, _, hpr⟩ := hm
  exact (parseRow_not_nan ti ki f.name cells rd hpr).2

/-- C10 witness: a file with a lowercase `building` column ingests with the
file's base name, not the column's first value. -/
theorem c10_building_from_filename_witness :
    processFile ⟨"A", ["building", "time", "kwh"],
      [[⟨"HallX", none, KVal.nan⟩, ⟨"t", some 0, KVal.nan⟩, ⟨"5", none, KVal.fin 5⟩]]⟩ =
      Except.ok [⟨0, KVal.fin 5, "A"⟩] ∧
    (⟨0, KVal.fin 5, "A"⟩ : Reading).building = "A" :=
  ⟨rfl, c10_building_from_filename ⟨"A", ["building", "time", "kwh"],
    [[⟨"HallX", none, KVal.nan⟩, ⟨"t", some 0, KVal.nan⟩, ⟨"5", none, KVal.fin 5⟩]]⟩
    [⟨0, KVal.fin 5, "A"⟩] (by decide) rfl _ (by decide)⟩

/-- The value comparison is irreflexive. -/
theorem kltB_irrefl (v : KVal) : kltB v v = false := by
  cases v <;> simp [kltB]

/-- The value comparison is transitive. -/
theorem kltB_trans (u v w : KVal) (h1 : kltB u v = true) (h2 : kltB v w = true) :
    kltB u w = true := by
  cases u <;> cases v <;> cases w <;> simp_all [kltB] <;> linarith

/-- Non-strict comparison (the negation of `kltB`) is transitive. -/
theorem kltB_false_trans (u v w : KVal) (h1 : kltB u v = false) (h2 : kltB v w = false) :
    kltB u w = false := by
  cases u <;> cases v <;> cases w <;> simp_all [kltB] <;> linarith

/-- The running maximum is one of the candidates. -/
theorem firstMax_mem : ∀ (rs : List Reading) (best : Reading),
    firstMax best rs ∈ best :: rs := by
  intro rs
  induction rs with
  | nil => intro best; simp [firstMax]
  | cons x xs ih =>
    intro best
    simp only [firstMax]
    by_cases hc : kltB best.kWh x.kWh = true
    · rw [if_pos hc]
      exact List.mem_cons_of_mem best (ih x)
    · rw [if_neg hc]
      rcases List.mem_cons.mp (ih best) with h1 | h1
      · rw [h1]
        exact List.mem_cons_self _ _
      · exact List.mem_cons_of_mem best (List.mem_cons_of_mem x h1)

/-- No candidate strictly exceeds the running maximum. -/
theorem firstMax_max : ∀ (rs : List Reading) (best : Reading),
    ∀ x ∈ best :: rs, kltB (firstMax best rs).kWh x.kWh = false := by
  intro rs
  induction rs with
  | nil =>
    intro best x hx
    rcases List.mem_cons.mp hx with h1 | h1
    · subst h1
      simp [firstMax, kltB_irrefl]
    · simp at h1
  | cons y ys ih =>
    intro best x hx
    simp only [firstMax]
    by_cases hc : kltB best.kWh y.kWh = true
    · rw [if_pos hc]
      rcases List.mem_cons.mp hx with h1 | h1
      · subst h1
        have hy : kltB (firstMax y ys).kWh y.kWh = false := ih y y (List.mem_cons_self y ys)
        by_contra hcon
        rw [Bool.not_eq_false] at hcon
        exact absurd (kltB_trans _ _ _ hcon hc) (by rw [hy]; simp)
      · exact ih y x h1
    · rw [if_neg hc]
      have hc2 : kltB best.kWh y.kWh = false := by
        rwa [Bool.not_eq_true] at hc
      rcases List.mem_cons.mp hx with h1 | h1
      · rw [h1]
        exact ih best best (List.mem_cons_self best ys)
      · rcases List.mem_cons.mp h1 with h2 | h2
        · subst h2
          have h3 : kltB (firstMax best ys).kWh best.kWh = false :=
            ih best best (List.mem_cons_self best ys)
          exact kltB_false_trans _ _ _ h3 hc2
        · exact ih best x (List.mem_cons_of_mem best h2)


/-- From `v` not above `u` and `u` strictly below `w`, `v` is strictly below
`w`. -/
theorem kltB_false_lt_trans (u v w : KVal) (h1 : kltB u v = false)
    (h2 : kltB u w = true) : kltB v w = true := by
  cases u <;> cases v <;> cases w <;> simp_all [kltB] <;> linarith

/-- The running maximum is the first row attaining it: the candidate list
splits around it and every earlier candidate is strictly below it. -/
theorem firstMax_first : ∀ (rs : List Reading) (best : Reading),
    ∃ l₁ l₂, best :: rs = l₁ ++ firstMax best rs :: l₂ ∧
      ∀ x ∈ l₁, kltB x.kWh (firstMax best rs).kWh = true := by
  intro rs
  induction rs with
  | nil =>
    intro best
    exact ⟨[], [], rfl, by simp⟩
  | cons y ys ih =>
    intro best
    simp only [firstMax]
    by_cases hc : kltB best.kWh y.kWh = true
    · rw [if_pos hc]
      obtain ⟨l₁, l₂, hdec, hlt⟩ := ih y
      have hby : kltB best.kWh (firstMax y ys).kWh = true := by
        rcases l₁ with _ | ⟨a, l₁t⟩
        · rw [List.nil_append] at hdec
          injection hdec with h1 h2
          rw [← h1]
          exact hc
        · rw [List.cons_append] at hdec
          injection hdec with h1 h2
          have hyl := hlt a (List.mem_cons_self a l₁t)
          rw [← h1] at hyl
          exact kltB_trans _ _ _ hc hyl
      refine ⟨best :: l₁, l₂, ?_, ?_⟩
      · rw [List.cons_append, ← hdec]
      · intro x hx
        rcases List.mem_cons.mp hx with h1 | h1
        · rw [h1]
          exact hby
        · exact hlt x h1
    · rw [if_neg hc]
      have hc2 : kltB best.kWh y.kWh = false := by
        rwa [Bool.not_eq_true] at hc
      obtain ⟨l₁, l₂, hdec, hlt⟩ := ih best
      rcases l₁ with _ | ⟨a, l₁t⟩
      · rw [List.nil_append] at hdec
        injection hdec with h1 h2
        exact ⟨[], y :: ys, by rw [List.nil_append, ← h1], by simp⟩
      · rw [List.cons_append] at hdec
        injection hdec with h1 h2
        have hb := hlt a (List.mem_cons_self a l₁t)
        rw [← h1] at hb
        refine ⟨best :: y :: l₁t, l₂, ?_, ?_⟩
        · rw [List.cons_append, List.cons_append, ← h2]
        · intro x hx
          rcases List.mem_cons.mp hx with hx1 | hx1
          · rw [hx1]
            exact hb
          · rcases List.mem_cons.mp hx1 with hx2 | hx2
            · rw [hx2]
              exact kltB_false_lt_trans _ _ _ hc2 hb
            · exact hlt x (List.mem_cons_of_mem a hx2)

/-- When every row sharing `m`'s timestamp is `m` itself, the first row of the
frame at that timestamp is `m`. -/
theorem headD_filter_eq (l : List Reading) (m : Reading) (hm : m ∈ l)
    (h : ∀ x ∈ l, x.timestamp = m.timestamp → x = m) :
    (l.filter (fun x => x.timestamp == m.timestamp)).headD m = m := by
  induction l with
  | nil => simp at hm
  | cons a t ih =>
    rw [List.filter_cons]
    by_cases ha : (a.timestamp == m.timestamp) = true
    · rw [if_pos ha]
      simp only [List.headD_cons]
      exact h a (List.mem_cons_self a t) (beq_iff_eq.mp ha)
    · rw [if_neg ha]
      have hmt : m ∈ t := by
        rcases List.mem_cons.mp hm with h1 | h1
        · exfalso
          apply ha
          rw [h1]
          exact beq_self_eq_true _
        · exact h1
      exact ih hmt (fun x hx hts => h x (List.mem_cons_of_mem a hx) hts)

/-- C1 counterexample: with two rows sharing the peak's timestamp, the claim
says the returned `kWh` equals the column maximum, but the function returns
the `kWh` of the first row at that timestamp (5), which is strictly below the
maximum (10) present in the column. -/
theorem c1_counterexample :
    find_peak_time ⟨"timestamp", true,
      [⟨0, KVal.fin 5, "A"⟩, ⟨0, KVal.fin 10, "B"⟩]⟩ = some ⟨0, KVal.fin 5⟩ ∧
    KVal.fin 10 ∈ (⟨"timestamp", true,
      [⟨0, KVal.fin 5, "A"⟩, ⟨0, KVal.fin 10, "B"⟩]⟩ : CleanedFrame).rows.map Reading.kWh ∧
    kltB (KVal.fin 5) (KVal.fin 10) = true := by
  refine ⟨?_, ?_, ?_⟩ <;> decide

/-- C1 amended: empty input gives an empty result; on non-empty input the
function never raises and the reported timestamp belongs to the FIRST row
attaining the maximal `kWh` — that row is maximal and every row before it is
strictly below it, so ties for the maximum resolve to the first encountered —
paired with the `kWh` of the first row bearing that timestamp; whenever no
other row shares the peak's timestamp the returned `kWh` is the maximal one. -/
theorem c1_peak_amended :
    (∀ df : CleanedFrame, df.rows = [] → find_peak_time df = none) ∧
    (∀ df : CleanedFrame, df.rows ≠ [] →
      ∃ m ∈ df.rows,
        (∀ x ∈ df.rows, kltB m.kWh x.kWh = false) ∧
        (∃ l₁ l₂, df.rows = l₁ ++ m :: l₂ ∧
          ∀ x ∈ l₁, kltB x.kWh m.kWh = true) ∧
        find_peak_time df =
          some ⟨m.timestamp,
            ((df.rows.filter (fun x => x.timestamp == m.timestamp)).headD m).kWh⟩ ∧
        ((∀ x ∈ df.rows, x.timestamp = m.timestamp → x = m) →
          find_peak_time df = some ⟨m.timestamp, m.kWh⟩)) := by
  constructor
  · intro df h
    simp [find_peak_time, h]
  · intro df h
    rcases hr : df.rows with _ | ⟨r, rs⟩
    · exact absurd hr h
    · refine ⟨firstMax r rs, ?_, ?_, ?_, ?_, ?_⟩
      · exact firstMax_mem rs r
      · exact firstMax_max rs r
      · exact firstMax_first rs r
      · simp [find_peak_time, hr]
      · intro htie
        have hh := headD_filter_eq (r :: rs) (firstMax r rs) (firstMax_mem rs r) htie
        simp only [List.headD_eq_head?_getD, List.filter_head?] at hh
        simp [find_peak_time, hr, hh]

/-- C1 witness: the amended statement at the empty frame and at a frame with
two rows tying for the maximal `kWh` at distinct timestamps — the returned
reading is the first of the tied rows. -/
theorem c1_peak_amended_witness :
    find_peak_time ⟨"timestamp", true, []⟩ = none ∧
    find_peak_time ⟨"timestamp", true,
      [⟨0, KVal.fin 10, "A"⟩, ⟨5, KVal.fin 10, "B"⟩]⟩ = some ⟨0, KVal.fin 10⟩ := by
  constructor
  · exact c1_peak_amended.1 _ rfl
  · obtain ⟨m, _, _, ⟨l₁, l₂, hdec, hfirst⟩, _, htie⟩ :=
      c1_peak_amended.2 ⟨"timestamp", true,
        [⟨0, KVal.fin 10, "A"⟩, ⟨5, KVal.fin 10, "B"⟩]⟩ (by simp)
    rcases l₁ with _ | ⟨a, l₁t⟩
    · rw [List.nil_append] at hdec
      injection hdec with h1 h2
      rw [← h1] at htie
      exact htie (by decide)
    · rw [List.cons_append] at hdec
      injection hdec with h1 h2
      rcases l₁t with _ | ⟨b, l₁tt⟩
      · rw [List.nil_append] at h2
        injection h2 with h3 h4
        have hcontr := hfirst a (List.mem_cons_self a [])
        rw [← h1, ← h3] at hcontr
        exact absurd hcontr (by decide)
      · rw [List.cons_append] at h2
        injection h2 with h3 h4
        exact absurd h4.symm (by simp)
